import Mathlib

/-!
Shallow embedding of the trigger-evaluation core of `yakusoku_keeper.py`
(class `YakusokuKeeper`: `get_rules` and `reset`), together with proofs of
the behavioral properties stated for it.

Modelling conventions:
* A rule document (one parsed YAML file) is an association list from trigger
  key to its list of directive strings; Python `dict` iteration order is the
  list order.
* Timestamps (`datetime.now()`, the values of `last_executed_time`) are
  integers counting seconds; `(now - last).total_seconds()` becomes integer
  subtraction.
* Python exceptions (`ValueError` from `int(...)`, `ZeroDivisionError` from
  `% 0`) are modelled with `Except`: an evaluation either returns the list of
  applicable directives and the updated state, or the exception that escaped.
  (Python mutates `self` in place before raising; the mutations left behind by
  an aborted call are not observable in this model — no property here reads
  the state of a failed evaluation.)
* String primitives used by the source (`str.startswith`, `in`,
  `str.split("_")`, `int(...)`) are modelled on `List Char` below.  `int(...)`
  is modelled as ASCII-whitespace stripping, an optional sign and ASCII
  digits; wherever the model parses a value, Python parses the same value,
  while the model's parse failure is wider than Python's `ValueError`
  (non-ASCII digits and non-ASCII whitespace are not modelled).  Theorems
  therefore conclude a `ValueError` only when the segment contains an ASCII
  letter, which `int()` rejects in every position.
-/

/-- Models Python `pat in s` (substring test) on character lists. -/
def containsSub : List Char → List Char → Bool
  | [], pat => pat.isEmpty
  | h :: t, pat => pat.isPrefixOf (h :: t) || containsSub t pat

/-- Models Python `s.startswith(pre)`. -/
def pyStartsWith (s pre : String) : Bool := pre.data.isPrefixOf s.data

/-- Models Python `pat in s` for strings. -/
def pyContains (s pat : String) : Bool := containsSub s.data pat.data

/-- Models Python `s.split("_")`: the maximal chunks between underscores. -/
def splitUnderscore : List Char → List (List Char)
  | [] => [[]]
  | c :: t =>
    if c = '_' then [] :: splitUnderscore t
    else
      match splitUnderscore t with
      | [] => [[c]]
      | seg :: rest => (c :: seg) :: rest

/-- Numeric value of a digit list (most significant first). -/
def digitsVal (cs : List Char) : Nat :=
  cs.foldl (fun a c => 10 * a + (c.toNat - 48)) 0

/-- ASCII whitespace (space, tab, newline, carriage return, vertical tab,
form feed), which Python `int()` strips around its argument. -/
def isSpaceChar (c : Char) : Bool :=
  c.toNat = 32 || c.toNat = 9 || c.toNat = 10 || c.toNat = 13 || c.toNat = 11 || c.toNat = 12

/-- The sign-and-digits core of Python `int(str)`: an optional sign followed
by one or more ASCII digits. -/
def pyIntCore (cs : List Char) : Option Int :=
  match cs with
  | [] => none
  | c :: rest =>
    if c = '-' then
      if !rest.isEmpty && rest.all Char.isDigit then some (-(digitsVal rest : Int)) else none
    else if c = '+' then
      if !rest.isEmpty && rest.all Char.isDigit then some ((digitsVal rest : Int)) else none
    else
      if (c :: rest).all Char.isDigit then some ((digitsVal (c :: rest) : Int)) else none

/-- Models Python `int(str)` (`none` is a `ValueError`): surrounding
whitespace is stripped, then an optional sign and one or more decimal digits
are read.  Underscore separators between digits cannot occur here (the
argument is a chunk of a `split("_")`).  Wherever this returns `some n`,
Python's `int()` returns the same `n`; the `none` case is wider than
`ValueError`, because non-ASCII decimal digits and non-ASCII whitespace,
which `int()` also accepts, are not modelled.  No theorem below concludes an
error from `none` alone: the error theorems require an ASCII letter in the
segment, on which `int()` always raises. -/
def pyInt (cs : List Char) : Option Int :=
  pyIntCore ((cs.dropWhile isSpaceChar).reverse.dropWhile isSpaceChar).reverse

/-- An ASCII letter (codepoints 65–90 and 97–122): a character that Python
`int()` accepts in no position of its argument, so a segment containing one
always raises `ValueError`. -/
def asciiLetter (c : Char) : Bool :=
  (97 ≤ c.toNat && c.toNat ≤ 122) || (65 ≤ c.toNat && c.toNat ≤ 90)

/-- Models `key.split("_")[1]`. Whenever the key starts with `"every_"` the
split has at least two chunks, so the default is never taken there. -/
def keySeg (key : String) : List Char := (splitUnderscore key.data).getD 1 []

/-- One rule document: a YAML mapping from trigger key to its ordered list of
directive strings, keys in insertion order. -/
abbrev Doc := List (String × List String)

/-- Models `d.get(k)` / `k in d` lookup on an association list. -/
def dictGet {α : Type} (m : List (String × α)) (k : String) : Option α :=
  match m with
  | [] => none
  | (k', v) :: rest => if k' = k then some v else dictGet rest k

/-- Models `d[k] = v`: update in place if the key exists, else append
(Python dicts keep insertion order). -/
def dictSet {α : Type} (m : List (String × α)) (k : String) (v : α) : List (String × α) :=
  match m with
  | [] => [(k, v)]
  | (k', v') :: rest => if k' = k then (k, v) :: rest else (k', v') :: dictSet rest k v

/-- The exceptions `get_rules` can raise: `int(...)` on a malformed numeric
segment, and `% 0`. -/
inductive PyError where
  | valueError : PyError
  | zeroDivisionError : PyError
deriving Repr, DecidableEq

/-- The mutable state of a `YakusokuKeeper` instance: `self.input_count`,
`self.last_executed_time` and the `self.rules` cache filled by
`load_rules()`. -/
structure YKState where
  input_count : Nat
  last_executed_time : List (String × Int)
  rules : List Doc
deriving Repr, DecidableEq

/-- `YakusokuKeeper.__init__`: zero counter, empty timer table, empty rule
cache (the config-file bootstrap is I/O and outside the model). -/
def initState : YKState := ⟨0, [], []⟩

/-- The loose input-count pattern the source tests:
`key.startswith("every_") and "_inputs" in key`. -/
def looseInputs (key : String) : Bool :=
  pyStartsWith key "every_" && pyContains key "_inputs"

/-- The loose time pattern the source tests:
`key.startswith("every_") and "_minutes" in key`. -/
def looseMinutes (key : String) : Bool :=
  pyStartsWith key "every_" && pyContains key "_minutes"

/-- Accumulator of the evaluation loop: the `applicable` list and the live
`last_executed_time` table. -/
structure EvalSt where
  applicable : List String
  last : List (String × Int)
deriving Repr, DecidableEq

/-- The input-count arm of the key loop:
`if key.startswith("every_") and "_inputs" in key: n = int(key.split("_")[1]);
if self.input_count % n == 0: applicable.extend(actions)`.
`Int.fmod` is Python's `%` (floor-based); Python raises `ZeroDivisionError`
on `% 0`, hence the explicit guard. -/
def inputStep (count : Nat) (key : String) (actions : List String) (st : EvalSt) :
    Except PyError EvalSt :=
  if looseInputs key then
    match pyInt (keySeg key) with
    | none => .error .valueError
    | some n =>
      if n = 0 then .error .zeroDivisionError
      else if Int.fmod (count : Int) n = 0 then
        .ok { st with applicable := st.applicable ++ actions }
      else .ok st
  else .ok st

/-- The time arm of the key loop:
`if key.startswith("every_") and "_minutes" in key: minutes = int(...);
last = self.last_executed_time.get(key); if last is None or
(now - last).total_seconds() >= minutes * 60: extend; last_executed_time[key] = now`. -/
def minuteStep (now : Int) (key : String) (actions : List String) (st : EvalSt) :
    Except PyError EvalSt :=
  if looseMinutes key then
    match pyInt (keySeg key) with
    | none => .error .valueError
    | some m =>
      match dictGet st.last key with
      | none => .ok ⟨st.applicable ++ actions, dictSet st.last key now⟩
      | some t =>
        if now - t ≥ m * 60 then .ok ⟨st.applicable ++ actions, dictSet st.last key now⟩
        else .ok st
  else .ok st

/-- One iteration of `for key, actions in rule_set.items()`: the input-count
arm then the time arm (two independent `if`s in the source). -/
def processKey (count : Nat) (now : Int) (key : String) (actions : List String)
    (st : EvalSt) : Except PyError EvalSt :=
  match inputStep count key actions st with
  | .error e => .error e
  | .ok st1 => minuteStep now key actions st1

/-- The key loop of `get_rules`; an exception aborts the loop and
propagates. -/
def runKeys (count : Nat) (now : Int) (st : EvalSt) : Doc → Except PyError EvalSt
  | [] => .ok st
  | (key, acts) :: rest =>
    match processKey count now key acts st with
    | .error e => .error e
    | .ok st' => runKeys count now st' rest

/-- One iteration of `for rule_set in self.rules`: the first-time block
(`rule_set.get("first", [])`, extended when `input_count == 1`), then the key
loop. -/
def processDoc (count : Nat) (now : Int) (st : EvalSt) (doc : Doc) : Except PyError EvalSt :=
  let firstRules := (dictGet doc "first").getD []
  let st := if count = 1 then { st with applicable := st.applicable ++ firstRules } else st
  runKeys count now st doc

/-- The document loop of `get_rules`. -/
def runDocs (count : Nat) (now : Int) (st : EvalSt) : List Doc → Except PyError EvalSt
  | [] => .ok st
  | doc :: rest =>
    match processDoc count now st doc with
    | .error e => .error e
    | .ok st' => runDocs count now st' rest

/-- `YakusokuKeeper.get_rules`: increment `input_count`, reload the rule
documents (`load_rules()`; the documents the store yields are the `docs`
argument), read the clock (`now`), run both loops and return the applicable
directives with the updated state.  An uncaught Python exception is the
`.error` case. -/
def get_rules (docs : List Doc) (now : Int) (s : YKState) :
    Except PyError (List String × YKState) :=
  let count := s.input_count + 1
  match runDocs count now ⟨[], s.last_executed_time⟩ docs with
  | .error e => .error e
  | .ok st => .ok (st.applicable, ⟨count, st.last, docs⟩)

/-- `YakusokuKeeper.reset`: zero the counter and clear the timer table;
everything else (the rule cache) is untouched. -/
def reset (s : YKState) : YKState :=
  { s with input_count := 0, last_executed_time := [] }

/-- The spec's firing condition for a time-based key: no recorded last-fired
timestamp, or at least `N` minutes (`N * 60` seconds) elapsed since it. -/
def minuteDue (last : List (String × Int)) (key : String) (now : Int) (N : Nat) : Bool :=
  match dictGet last key with
  | none => true
  | some t => decide (now - t ≥ (N : Int) * 60)

/-- The spec grammar `every_<N>_inputs` (N a positive integer), as a decidable
predicate: the key splits on `_` into exactly `every`, a digit chunk of
positive value, `inputs`. -/
def specInputsKey (key : String) : Bool :=
  match splitUnderscore key.data with
  | [e, n, i] =>
    e == "every".data && i == "inputs".data && !n.isEmpty && n.all Char.isDigit &&
      decide (0 < digitsVal n)
  | _ => false

/-- The spec grammar `every_<N>_minutes` (N a positive integer), as a decidable
predicate. -/
def specMinutesKey (key : String) : Bool :=
  match splitUnderscore key.data with
  | [e, n, m] =>
    e == "every".data && m == "minutes".data && !n.isEmpty && n.all Char.isDigit &&
      decide (0 < digitsVal n)
  | _ => false

example : pyStartsWith "every_3_inputs" "every_" = true := by decide
example : pyContains "every_3_inputs" "_inputs" = true := by decide
example : pyContains "every_3_inputs" "_minutes" = false := by decide
example : keySeg "every_3_inputs" = ['3'] := by decide
example : pyInt (keySeg "every_10_minutes") = some 10 := by decide
example : pyInt (keySeg "every_abc_inputs") = none := by decide
example : pyInt (keySeg "every_ 2_inputs") = some 2 := by decide
example : pyInt " -7 ".data = some (-7) := by decide

example :
    get_rules [[("first", ["hi"]), ("every_2_inputs", ["even"])]] 0 initState =
      .ok (["hi"], ⟨1, [], [[("first", ["hi"]), ("every_2_inputs", ["even"])]]⟩) := rfl

example :
    get_rules [[("first", ["hi"]), ("every_2_inputs", ["even"])]] 0 ⟨1, [], []⟩ =
      .ok (["even"], ⟨2, [], [[("first", ["hi"]), ("every_2_inputs", ["even"])]]⟩) := rfl

example :
    get_rules [[("every_10_minutes", ["B"])]] 100 ⟨3, [("every_10_minutes", 0)], []⟩ =
      .ok ([], ⟨4, [("every_10_minutes", 0)], [[("every_10_minutes", ["B"])]]⟩) := rfl

example :
    get_rules [[("every_10_minutes", ["B"])]] 600 ⟨3, [("every_10_minutes", 0)], []⟩ =
      .ok (["B"], ⟨4, [("every_10_minutes", 600)], [[("every_10_minutes", ["B"])]]⟩) := rfl

example :
    get_rules [[("every_abc_inputs", ["X"]), ("every_2_inputs", ["Y"])]] 0 ⟨1, [], []⟩ =
      .error .valueError := rfl

example :
    get_rules [[("every_0_inputs", ["X"])]] 0 initState = .error .zeroDivisionError := rfl

example :
    get_rules [[("every_1_minutes", ["M"]), ("every_1_inputs", ["I"])]] 0 initState =
      .ok (["M", "I"], ⟨1, [("every_1_minutes", 0)],
        [[("every_1_minutes", ["M"]), ("every_1_inputs", ["I"])]]⟩) := rfl

/-! ### Helper lemmas -/

lemma ne_first_of_startsWith_every {key : String}
    (h : pyStartsWith key "every_" = true) : key ≠ "first" := by
  rintro rfl
  exact absurd h (by decide)

lemma isDigit_false_of_asciiLetter {c : Char} (h : asciiLetter c = true) :
    c.isDigit = false := by
  simp only [asciiLetter, Bool.or_eq_true, Bool.and_eq_true, decide_eq_true_eq] at h
  simp only [Char.isDigit, Bool.and_eq_false_iff, decide_eq_false_iff_not]
  have key : c.val ≤ 57 → c.toNat ≤ 57 := fun hc =>
    UInt32.toNat_le_of_le (by norm_num) hc
  rcases h with ⟨h1, h2⟩ | ⟨h1, h2⟩
  · exact Or.inr fun hle => absurd (key hle) (by omega)
  · exact Or.inr fun hle => absurd (key hle) (by omega)

lemma mem_dropWhile_of_neg {α : Type} {p : α → Bool} {x : α} {l : List α}
    (hx : x ∈ l) (hpx : p x = false) : x ∈ l.dropWhile p := by
  induction l with
  | nil => cases hx
  | cons a t ih =>
    rw [List.dropWhile_cons]
    rcases List.mem_cons.mp hx with rfl | hmem
    · rw [hpx]
      simp
    · by_cases ha : p a = true
      · rw [ha]
        simpa using ih hmem
      · rw [Bool.not_eq_true] at ha
        rw [ha]
        simp [hmem]

lemma all_isDigit_false_of_mem {cs : List Char} {x : Char}
    (hx : x ∈ cs) (hxd : x.isDigit = false) : cs.all Char.isDigit = false := by
  by_contra hcon
  rw [Bool.not_eq_false] at hcon
  exact absurd (List.all_eq_true.mp hcon x hx) (by simp [hxd])

lemma pyIntCore_none_of_letter {cs : List Char} {x : Char}
    (hx : x ∈ cs) (hl : asciiLetter x = true) : pyIntCore cs = none := by
  have hxd : x.isDigit = false := isDigit_false_of_asciiLetter hl
  cases cs with
  | nil => cases hx
  | cons c rest =>
    simp only [pyIntCore]
    rcases List.mem_cons.mp hx with rfl | hmem
    · have hc1 : x ≠ '-' := by rintro rfl; exact absurd hl (by decide)
      have hc2 : x ≠ '+' := by rintro rfl; exact absurd hl (by decide)
      simp [hc1, hc2, hxd]
    · have hrest : rest.all Char.isDigit = false := all_isDigit_false_of_mem hmem hxd
      by_cases hc1 : c = '-'
      · simp [hc1, hrest]
      · by_cases hc2 : c = '+'
        · simp [hc1, hc2, hrest]
        · simp [hc1, hc2, hrest]

lemma pyInt_none_of_letter {cs : List Char} (h : cs.any asciiLetter = true) :
    pyInt cs = none := by
  obtain ⟨x, hx, hl⟩ := List.any_eq_true.mp h
  have hsp : isSpaceChar x = false := by
    have hge : 65 ≤ x.toNat := by
      simp only [asciiLetter, Bool.or_eq_true, Bool.and_eq_true, decide_eq_true_eq] at hl
      rcases hl with ⟨h1, -⟩ | ⟨h1, -⟩ <;> omega
    simp only [isSpaceChar, Bool.or_eq_false_iff, decide_eq_false_iff_not]
    omega
  have h1 : x ∈ cs.dropWhile isSpaceChar := mem_dropWhile_of_neg hx hsp
  have h2 : x ∈ (cs.dropWhile isSpaceChar).reverse := List.mem_reverse.mpr h1
  have h3 : x ∈ (cs.dropWhile isSpaceChar).reverse.dropWhile isSpaceChar :=
    mem_dropWhile_of_neg h2 hsp
  have h4 : x ∈ ((cs.dropWhile isSpaceChar).reverse.dropWhile isSpaceChar).reverse :=
    List.mem_reverse.mpr h3
  exact pyIntCore_none_of_letter h4 hl

lemma fmod_natCast_eq_zero_iff (a N : Nat) :
    Int.fmod (a : Int) (N : Int) = 0 ↔ a % N = 0 := by
  rw [← Int.ofNat_fmod]
  exact Int.natCast_eq_zero

lemma mem_dictSet {α : Type} {m : List (String × α)} {k : String} {v : α} {kt : String × α}
    (h : kt ∈ dictSet m k v) : kt ∈ m ∨ kt = (k, v) := by
  induction m with
  | nil =>
    simp [dictSet] at h
    exact Or.inr h
  | cons hd tl ih =>
    by_cases hk : hd.1 = k
    · obtain ⟨k', v'⟩ := hd
      simp only at hk
      simp [dictSet, hk] at h
      rcases h with h | h
      · exact Or.inr h
      · exact Or.inl (List.mem_cons_of_mem _ h)
    · obtain ⟨k', v'⟩ := hd
      simp only at hk
      simp [dictSet, hk] at h
      rcases h with h | h
      · exact Or.inl (by simp [h])
      · rcases ih h with h' | h'
        · exact Or.inl (List.mem_cons_of_mem _ h')
        · exact Or.inr h'

/-! ### Theorems about the claims -/

/-- C10: evaluation of a document containing the key `every_0_inputs` reaches
`self.input_count % 0` and raises `ZeroDivisionError`, for every state and
clock reading: `get_rules` is total only when every loosely-matching
`every_<N>_inputs` key has `N ≠ 0`. -/
theorem zero_divisor_raises (acts : List String) (s : YKState) (now : Int) :
    get_rules [[("every_0_inputs", acts)]] now s = .error .zeroDivisionError := by
  simp [get_rules, runDocs, processDoc, runKeys, processKey, inputStep,
    show looseInputs "every_0_inputs" = true from by decide,
    show pyInt (keySeg "every_0_inputs") = some 0 from by decide,
    show dictGet [("every_0_inputs", acts)] "first" = none from by
      simp [dictGet]]

/-- C6: `reset` zeroes the counter, clears the timer table, touches nothing
else (the rule cache survives), is idempotent, and a reset followed by an
evaluation is indistinguishable from the first evaluation of a freshly
constructed keeper on the same documents and clock. -/
theorem reset_spec (s : YKState) (docs : List Doc) (now : Int) :
    reset (reset s) = reset s
    ∧ (reset s).input_count = 0
    ∧ (reset s).last_executed_time = []
    ∧ (reset s).rules = s.rules
    ∧ get_rules docs now (reset s) = get_rules docs now initState := by
  refine ⟨rfl, rfl, rfl, rfl, ?_⟩
  simp [get_rules, reset, initState]

/-- C2: a well-formed key `every_<N>_inputs` (N positive) fires exactly on the
calls whose post-increment counter is an exact positive multiple of N, and
contributes its directives in list order; the timer table is untouched. -/
theorem every_inputs_gate (key : String) (N : Nat) (acts : List String)
    (s : YKState) (now : Int)
    (hpre : pyStartsWith key "every_" = true)
    (hii : pyContains key "_inputs" = true)
    (hmi : pyContains key "_minutes" = false)
    (hparse : pyInt (keySeg key) = some (N : Int))
    (hN : 0 < N) :
    get_rules [[(key, acts)]] now s =
      .ok ((if (s.input_count + 1) % N = 0 then acts else []),
        ⟨s.input_count + 1, s.last_executed_time, [[(key, acts)]]⟩)
    ∧ ((s.input_count + 1) % N = 0 ↔ ∃ k, 0 < k ∧ s.input_count + 1 = N * k) := by
  have hne : key ≠ "first" := ne_first_of_startsWith_every hpre
  have hli : looseInputs key = true := by simp [looseInputs, hpre, hii]
  have hlm : looseMinutes key = false := by simp [looseMinutes, hpre, hmi]
  have hNz : (N : Int) ≠ 0 := by
    exact_mod_cast Nat.pos_iff_ne_zero.mp hN
  constructor
  · simp only [get_rules, runDocs, processDoc, runKeys, processKey, inputStep, minuteStep,
      dictGet, hne, if_neg hne, hli, hlm, hparse, if_true, Bool.false_eq_true, if_false,
      Option.getD_none, List.append_nil, ite_self, if_neg hNz]
    by_cases hmod : (s.input_count + 1) % N = 0
    · rw [if_pos ((fmod_natCast_eq_zero_iff _ _).mpr hmod), if_pos hmod]
      simp
    · rw [if_neg (fun h => hmod ((fmod_natCast_eq_zero_iff _ _).mp h)), if_neg hmod]
  · constructor
    · intro h
      obtain ⟨k, hk⟩ := Nat.dvd_of_mod_eq_zero h
      refine ⟨k, ?_, hk⟩
      rcases Nat.eq_zero_or_pos k with rfl | hkpos
      · omega
      · exact hkpos
    · rintro ⟨k, -, hk⟩
      rw [hk]
      exact Nat.mul_mod_right N k

/-- C7: two documents each carrying `every_5_inputs` are evaluated
independently on a multiple-of-5 call and their directive lists concatenated
in document-load order, each in its own list order, with no merging or
de-duplication (the lists may be textually identical). -/
theorem multi_doc_concat (a b : List String) (s : YKState) (now : Int)
    (h : (s.input_count + 1) % 5 = 0) :
    get_rules [[("every_5_inputs", a)], [("every_5_inputs", b)]] now s =
      .ok (a ++ b,
        ⟨s.input_count + 1, s.last_executed_time,
         [[("every_5_inputs", a)], [("every_5_inputs", b)]]⟩) := by
  have hmod : Int.fmod ((s.input_count + 1 : Nat) : Int) ((5 : Nat) : Int) = 0 :=
    (fmod_natCast_eq_zero_iff _ _).mpr h
  push_cast at hmod
  simp [get_rules, runDocs, processDoc, runKeys, processKey, inputStep, minuteStep,
    dictGet, hmod,
    show looseInputs "every_5_inputs" = true from by decide,
    show looseMinutes "every_5_inputs" = false from by decide,
    show pyInt (keySeg "every_5_inputs") = some 5 from by decide]

/-- Witness for `every_inputs_gate`: `every_3_inputs: ["A"]` on call 3. -/
theorem every_inputs_gate_witness :
    get_rules [[("every_3_inputs", ["A"])]] 0 ⟨2, [], []⟩ =
      .ok ((if (2 + 1) % 3 = 0 then ["A"] else []), ⟨3, [], [[("every_3_inputs", ["A"])]]⟩) :=
  (every_inputs_gate "every_3_inputs" 3 ["A"] ⟨2, [], []⟩ 0
    (by decide) (by decide) (by decide) (by decide) (by decide)).1

/-- C1: a well-formed key `every_<N>_minutes` (N positive) fires exactly when
it has no recorded last-fired timestamp or at least `N * 60` seconds separate
that timestamp from the current clock reading; exactly in that case its
directives are returned and its timestamp is set to the current reading, so a
strictly earlier re-check returns nothing for it. -/
theorem every_minutes_gate (key : String) (N : Nat) (acts : List String)
    (s : YKState) (now : Int)
    (hpre : pyStartsWith key "every_" = true)
    (hii : pyContains key "_inputs" = false)
    (hmi : pyContains key "_minutes" = true)
    (hparse : pyInt (keySeg key) = some (N : Int))
    (_hN : 0 < N) :
    get_rules [[(key, acts)]] now s =
      (if minuteDue s.last_executed_time key now N then
        .ok (acts,
          ⟨s.input_count + 1, dictSet s.last_executed_time key now, [[(key, acts)]]⟩)
      else
        .ok ([],
          ⟨s.input_count + 1, s.last_executed_time, [[(key, acts)]]⟩)) := by
  have hne : key ≠ "first" := ne_first_of_startsWith_every hpre
  have hli : looseInputs key = false := by simp [looseInputs, hpre, hii]
  have hlm : looseMinutes key = true := by simp [looseMinutes, hpre, hmi]
  have hfirst : dictGet [(key, acts)] "first" = none := by simp [dictGet, hne]
  cases hd : dictGet s.last_executed_time key with
  | none =>
    simp [get_rules, runDocs, processDoc, runKeys, processKey, inputStep, minuteStep,
      minuteDue, hfirst, hd, hli, hlm, hparse]
  | some t =>
    by_cases hdue : now - t ≥ (N : Int) * 60
    · simp [get_rules, runDocs, processDoc, runKeys, processKey, inputStep, minuteStep,
        minuteDue, hfirst, hd, hli, hlm, hparse, hdue]
    · simp [get_rules, runDocs, processDoc, runKeys, processKey, inputStep, minuteStep,
        minuteDue, hfirst, hd, hli, hlm, hparse, hdue]

/-- Witness for `every_minutes_gate`: `every_10_minutes: ["B"]`, fired at 0,
re-checked at 540 s (9 min): not due, nothing returned, timestamp kept. -/
theorem every_minutes_gate_witness :
    get_rules [[("every_10_minutes", ["B"])]] 540 ⟨1, [("every_10_minutes", 0)], []⟩ =
      (if minuteDue [("every_10_minutes", 0)] "every_10_minutes" 540 10 then
        .ok (["B"], ⟨2, dictSet [("every_10_minutes", 0)] "every_10_minutes" 540,
          [[("every_10_minutes", ["B"])]]⟩)
      else
        .ok ([], ⟨2, [("every_10_minutes", 0)], [[("every_10_minutes", ["B"])]]⟩)) :=
  every_minutes_gate "every_10_minutes" 10 ["B"] ⟨1, [("every_10_minutes", 0)], []⟩ 540
    (by decide) (by decide) (by decide) (by decide) (by decide)

lemma runDocs_first_only (now : Int) (st : EvalSt) (fs : List (List String)) :
    runDocs 1 now st (fs.map fun f => [("first", f)]) =
      .ok ⟨st.applicable ++ fs.flatten, st.last⟩ := by
  induction fs generalizing st with
  | nil => simp [runDocs]
  | cons f rest ih =>
    simp [runDocs, processDoc, runKeys, processKey, inputStep, minuteStep, dictGet, ih,
      show looseInputs "first" = false from by decide,
      show looseMinutes "first" = false from by decide]

lemma runDocs_first_only_later (count : Nat) (now : Int) (st : EvalSt)
    (fs : List (List String)) (hc : count ≠ 1) :
    runDocs count now st (fs.map fun f => [("first", f)]) = .ok st := by
  induction fs generalizing st with
  | nil => simp [runDocs]
  | cons f rest ih =>
    simp [runDocs, processDoc, runKeys, processKey, inputStep, minuteStep, dictGet, ih, hc,
      show looseInputs "first" = false from by decide,
      show looseMinutes "first" = false from by decide]

/-- C3: from a fresh or just-reset state (counter 0) the first call returns
the `first` directives of every loaded document, concatenated in load order,
and any call whose pre-increment counter is nonzero (every later call before
the next reset) returns none of them. -/
theorem first_fire_once (fs : List (List String)) (s : YKState) (now : Int) :
    (s.input_count = 0 →
      get_rules (fs.map fun f => [("first", f)]) now s =
        .ok (fs.flatten,
          ⟨1, s.last_executed_time, fs.map fun f => [("first", f)]⟩))
    ∧ (s.input_count ≠ 0 →
      get_rules (fs.map fun f => [("first", f)]) now s =
        .ok ([],
          ⟨s.input_count + 1, s.last_executed_time, fs.map fun f => [("first", f)]⟩)) := by
  constructor
  · intro h0
    simp [get_rules, h0, runDocs_first_only]
  · intro hne
    have hc : s.input_count + 1 ≠ 1 := by omega
    simp [get_rules, runDocs_first_only_later _ _ _ _ hc]

/-- Witness for `first_fire_once`: the first call on a fresh keeper returns
both documents' `first` directives. -/
theorem first_fire_once_witness :
    get_rules ([["hi"], ["yo"]].map fun f => [("first", f)]) 0 initState =
      .ok ([["hi"], ["yo"]].flatten,
        ⟨1, [], [["hi"], ["yo"]].map fun f => [("first", f)]⟩) :=
  (first_fire_once [["hi"], ["yo"]] initState 0).1 rfl

/-- C4 counterexample: on call 2 with `every_abc_inputs: ["X"]` ahead of a
valid `every_2_inputs: ["Y"]`, `get_rules` raises `ValueError` from
`int("abc")` instead of skipping the malformed key and firing `"Y"`. -/
theorem malformed_key_raises :
    get_rules [[("every_abc_inputs", ["X"]), ("every_2_inputs", ["Y"])]] 0 ⟨1, [], []⟩ =
      .error .valueError := rfl

/-- C4 amended: a key matching either loose trigger pattern whose numeric
segment contains an ASCII letter — a character `int()` rejects in every
position, as in `every_abc_inputs` — makes `get_rules` raise `ValueError`;
the exception propagates out of the call, so sibling keys after it (here a
valid `every_2_inputs`) are not evaluated at all. -/
theorem malformed_key_raises_general (key : String) (acts ys : List String)
    (s : YKState) (now : Int)
    (hpre : pyStartsWith key "every_" = true)
    (hpat : looseInputs key = true ∨ looseMinutes key = true)
    (hletter : (keySeg key).any asciiLetter = true) :
    get_rules [[(key, acts), ("every_2_inputs", ys)]] now s = .error .valueError := by
  have hparse : pyInt (keySeg key) = none := pyInt_none_of_letter hletter
  have hne : key ≠ "first" := ne_first_of_startsWith_every hpre
  have hfirst : dictGet [(key, acts), ("every_2_inputs", ys)] "first" = none := by
    simp [dictGet, hne]
  by_cases hli : looseInputs key = true
  · simp [get_rules, runDocs, processDoc, runKeys, processKey, inputStep,
      hfirst, hli, hparse]
  · have hlm : looseMinutes key = true := hpat.resolve_left hli
    simp [get_rules, runDocs, processDoc, runKeys, processKey, inputStep, minuteStep,
      hfirst, hli, hlm, hparse]

/-- Witness for `malformed_key_raises_general`: the minutes spelling of a
malformed key also raises. -/
theorem malformed_key_raises_general_witness :
    get_rules [[("every_abc_minutes", ["X"]), ("every_2_inputs", ["Y"])]] 0 initState =
      .error .valueError :=
  malformed_key_raises_general "every_abc_minutes" ["X"] ["Y"] initState 0
    (by decide) (Or.inr (by decide)) (by decide)

/-- C5 counterexample: with the time key listed before the input key, the
time-based directive `"M"` precedes the input-based directive `"I"` in the
result of call 1 — input-based directives do not all come before time-based
ones. -/
theorem order_counterexample :
    get_rules [[("every_1_minutes", ["M"]), ("every_1_inputs", ["I"])]] 0 initState =
      .ok (["M", "I"], ⟨1, [("every_1_minutes", 0)],
        [[("every_1_minutes", ["M"]), ("every_1_inputs", ["I"])]]⟩) := rfl

/-- C5 amended: the result is ordered document-by-document in load order; in a
document the `first` directives (on call 1) come first, and then each key
contributes in key-insertion order, a key's input-pattern directives directly
before that same key's minute-pattern ones; input and minute directives of
different keys interleave in key order instead of forming two blocks. -/
theorem order_amended (f1 m1 i1 i2 m2 : List String) :
    get_rules [[("first", f1), ("every_1_minutes", m1), ("every_1_inputs", i1)],
               [("every_1_inputs", i2), ("every_2_minutes", m2)]] 0 initState =
      .ok (f1 ++ m1 ++ i1 ++ i2 ++ m2,
        ⟨1, [("every_1_minutes", 0), ("every_2_minutes", 0)],
         [[("first", f1), ("every_1_minutes", m1), ("every_1_inputs", i1)],
          [("every_1_inputs", i2), ("every_2_minutes", m2)]]⟩) := by
  simp [get_rules, runDocs, processDoc, runKeys, processKey, inputStep, minuteStep,
    dictGet, dictSet,
    show looseInputs "first" = false from by decide,
    show looseMinutes "first" = false from by decide,
    show looseInputs "every_1_minutes" = false from by decide,
    show looseMinutes "every_1_minutes" = true from by decide,
    show looseInputs "every_1_inputs" = true from by decide,
    show looseMinutes "every_1_inputs" = false from by decide,
    show looseInputs "every_2_minutes" = false from by decide,
    show looseMinutes "every_2_minutes" = true from by decide,
    show pyInt (keySeg "every_1_minutes") = some 1 from by decide,
    show pyInt (keySeg "every_1_inputs") = some 1 from by decide,
    show pyInt (keySeg "every_2_minutes") = some 2 from by decide, initState]

/-- C8 counterexample: `every_2_x_minutes` matches neither spec grammar, yet
it is not inert: on call 1 it contributes its directives and creates a
last-fired entry. -/
theorem inert_counterexample :
    (get_rules [[("every_2_x_minutes", ["Z"])]] 7 initState =
      .ok (["Z"], ⟨1, [("every_2_x_minutes", 7)], [[("every_2_x_minutes", ["Z"])]]⟩))
    ∧ specInputsKey "every_2_x_minutes" = false
    ∧ specMinutesKey "every_2_x_minutes" = false :=
  ⟨rfl, by decide, by decide⟩

/-- C8 amended: a key that is not `first` and matches neither loose source
pattern (`startswith("every_")` together with a `_inputs` or `_minutes`
substring) contributes no directives, raises nothing and never creates a
last-fired entry. -/
theorem inert_keys (key : String) (acts : List String) (s : YKState) (now : Int)
    (hf : key ≠ "first")
    (hi : looseInputs key = false)
    (hm : looseMinutes key = false) :
    get_rules [[(key, acts)]] now s =
      .ok ([], ⟨s.input_count + 1, s.last_executed_time, [[(key, acts)]]⟩) := by
  have hfirst : dictGet [(key, acts)] "first" = none := by simp [dictGet, hf]
  simp [get_rules, runDocs, processDoc, runKeys, processKey, inputStep, minuteStep,
    hfirst, hi, hm]

/-- Witness for `inert_keys`: an unrelated key is inert. -/
theorem inert_keys_witness :
    get_rules [[("note", ["A"])]] 5 initState =
      .ok ([], ⟨0 + 1, [], [[("note", ["A"])]]⟩) :=
  inert_keys "note" ["A"] initState 5 (by decide) (by decide) (by decide)

/-- Witness for `multi_doc_concat`: call 5 with two identical documents. -/
theorem multi_doc_concat_witness :
    get_rules [[("every_5_inputs", ["same"])], [("every_5_inputs", ["same"])]] 0 ⟨4, [], []⟩ =
      .ok (["same"] ++ ["same"],
        ⟨5, [], [[("every_5_inputs", ["same"])], [("every_5_inputs", ["same"])]]⟩) :=
  multi_doc_concat ["same"] ["same"] ⟨4, [], []⟩ 0 (by decide)

/-! ### The last-fired table invariant (C9) -/

lemma inputStep_last {count : Nat} {key : String} {acts : List String} {st st' : EvalSt}
    (h : inputStep count key acts st = .ok st') : st'.last = st.last := by
  simp only [inputStep] at h
  split at h
  · split at h
    · cases h
    · split at h
      · cases h
      · split at h
        · cases h
          rfl
        · cases h
          rfl
  · cases h
    rfl

lemma minuteStep_last {now : Int} {key : String} {acts : List String} {st st' : EvalSt}
    (h : minuteStep now key acts st = .ok st') :
    st'.last = st.last
    ∨ (looseMinutes key = true ∧ st'.last = dictSet st.last key now
        ∧ st'.applicable = st.applicable ++ acts) := by
  simp only [minuteStep] at h
  split at h
  next hk =>
    split at h
    · cases h
    · split at h
      · cases h
        exact Or.inr ⟨hk, rfl, rfl⟩
      · split at h
        · cases h
          exact Or.inr ⟨hk, rfl, rfl⟩
        · cases h
          exact Or.inl rfl
  next hk =>
    cases h
    exact Or.inl rfl

lemma processKey_last {count : Nat} {now : Int} {key : String} {acts : List String}
    {st st' : EvalSt} (h : processKey count now key acts st = .ok st') :
    st'.last = st.last
    ∨ (looseMinutes key = true ∧ st'.last = dictSet st.last key now) := by
  simp only [processKey] at h
  cases hi : inputStep count key acts st with
  | error e =>
    rw [hi] at h
    cases h
  | ok st1 =>
    rw [hi] at h
    have h1 := inputStep_last hi
    rcases minuteStep_last h with h2 | ⟨hk, h2, -⟩
    · exact Or.inl (h2.trans h1)
    · exact Or.inr ⟨hk, by rw [h2, h1]⟩

lemma runKeys_last_inv (P : List (String × Int) → Prop) {count : Nat} {now : Int}
    {st st' : EvalSt} {doc : Doc}
    (hstep : ∀ m k, P m → looseMinutes k = true → P (dictSet m k now))
    (h : runKeys count now st doc = .ok st') (hP : P st.last) : P st'.last := by
  induction doc generalizing st with
  | nil =>
    simp only [runKeys] at h
    cases h
    exact hP
  | cons kv rest ih =>
    obtain ⟨k, a⟩ := kv
    simp only [runKeys] at h
    cases hp : processKey count now k a st with
    | error e =>
      rw [hp] at h
      cases h
    | ok st1 =>
      rw [hp] at h
      rcases processKey_last hp with h1 | ⟨hk, h1⟩
      · exact ih h (h1 ▸ hP)
      · exact ih h (h1 ▸ hstep _ _ hP hk)

lemma processDoc_last_inv (P : List (String × Int) → Prop) {count : Nat} {now : Int}
    {st st' : EvalSt} {doc : Doc}
    (hstep : ∀ m k, P m → looseMinutes k = true → P (dictSet m k now))
    (h : processDoc count now st doc = .ok st') (hP : P st.last) : P st'.last := by
  simp only [processDoc] at h
  refine runKeys_last_inv P hstep h ?_
  split <;> exact hP

lemma runDocs_last_inv (P : List (String × Int) → Prop) {count : Nat} {now : Int}
    {st st' : EvalSt} {docs : List Doc}
    (hstep : ∀ m k, P m → looseMinutes k = true → P (dictSet m k now))
    (h : runDocs count now st docs = .ok st') (hP : P st.last) : P st'.last := by
  induction docs generalizing st with
  | nil =>
    simp only [runDocs] at h
    cases h
    exact hP
  | cons doc rest ih =>
    simp only [runDocs] at h
    cases hp : processDoc count now st doc with
    | error e =>
      rw [hp] at h
      cases h
    | ok st1 =>
      rw [hp] at h
      exact ih h (processDoc_last_inv P hstep hp hP)

lemma lastOk_step (base : List (String × Int)) (now : Int) :
    ∀ m k, (∀ kt ∈ m, looseMinutes kt.1 = true ∧ (kt ∈ base ∨ kt.2 = now)) →
      looseMinutes k = true →
      ∀ kt ∈ dictSet m k now, looseMinutes kt.1 = true ∧ (kt ∈ base ∨ kt.2 = now) := by
  intro m k hm hk kt hkt
  rcases mem_dictSet hkt with h | rfl
  · exact hm kt h
  · exact ⟨hk, Or.inr rfl⟩

/-- C9 counterexample: the last-fired table can hold a key that is not of the
spec grammar `every_<N>_minutes`: `every_3_y_minutes` fires and is recorded. -/
theorem last_fired_counterexample :
    (get_rules [[("every_3_y_minutes", ["W"])]] 11 initState =
      .ok (["W"], ⟨1, [("every_3_y_minutes", 11)], [[("every_3_y_minutes", ["W"])]]⟩))
    ∧ specMinutesKey "every_3_y_minutes" = false :=
  ⟨rfl, by decide⟩

/-- C9 amended: the table starts empty and `reset` empties it; across any
successful evaluation it only ever holds keys matching the loose time pattern
(`startswith("every_")` with a `_minutes` substring), and every entry either
survives unchanged from before the call or carries this call's clock reading,
written by the firing branch together with the directive append. -/
theorem last_fired_invariant (docs : List Doc) (now : Int) (s : YKState)
    (res : List String) (s' : YKState)
    (hbase : ∀ kt ∈ s.last_executed_time, looseMinutes kt.1 = true)
    (hrun : get_rules docs now s = .ok (res, s')) :
    (∀ kt ∈ s'.last_executed_time, looseMinutes kt.1 = true)
    ∧ (∀ kt ∈ s'.last_executed_time, kt ∈ s.last_executed_time ∨ kt.2 = now)
    ∧ initState.last_executed_time = []
    ∧ (reset s).last_executed_time = [] := by
  simp only [get_rules] at hrun
  cases hr : runDocs (s.input_count + 1) now ⟨[], s.last_executed_time⟩ docs with
  | error e =>
    rw [hr] at hrun
    cases hrun
  | ok st =>
    rw [hr] at hrun
    simp only [Except.ok.injEq, Prod.mk.injEq] at hrun
    obtain ⟨-, rfl⟩ := hrun
    have hP := runDocs_last_inv
      (fun m => ∀ kt ∈ m, looseMinutes kt.1 = true ∧ (kt ∈ s.last_executed_time ∨ kt.2 = now))
      (lastOk_step s.last_executed_time now) hr
      (fun kt hkt => ⟨hbase kt hkt, Or.inl hkt⟩)
    exact ⟨fun kt hkt => (hP kt hkt).1, fun kt hkt => (hP kt hkt).2, rfl, rfl⟩

/-- Witness for `last_fired_invariant`: one fresh time key fires at 3 and is
recorded with timestamp 3. -/
theorem last_fired_invariant_witness :
    (∀ kt ∈ ([("every_1_minutes", (3 : Int))]), looseMinutes kt.1 = true)
    ∧ (∀ kt ∈ ([("every_1_minutes", (3 : Int))]), kt ∈ ([] : List (String × Int)) ∨ kt.2 = 3)
    ∧ initState.last_executed_time = []
    ∧ (reset initState).last_executed_time = [] := by
  have h := last_fired_invariant [[("every_1_minutes", ["B"])]] 3 initState
    ["B"] ⟨1, [("every_1_minutes", 3)], [[("every_1_minutes", ["B"])]]⟩
    (by simp [initState]) rfl
  exact h
